import Mathlib

/-!
Shallow embedding of the core of the gsoc-drive-client repository
(remote change tracker, local change tracker, task scheduler, sync engine),
translated from the JavaScript sources:
  src/js/remote_files.js, src/js/local_files.js, src/js/sync_engine.js,
  src/js/set.js, src/js/utils.js, src/unnamed/part_005 (TaskQueue),
  src/unnamed/part_007 (LocalFileManager revision with flat entry fields).

Modelling conventions, applied uniformly:
* JavaScript objects used as dictionaries become insertion-ordered
  association lists `List (String × α)`; `for (var k in d)` iterates in
  insertion order, property writes keep the original position of an
  existing key and append a fresh key, `delete` removes the key.
* A possibly-`undefined` value becomes `Option α`; the loose comparisons
  `==`/`!=` that the sources apply to strings and `undefined` become
  decidable equality on `Option String` (`undefined == undefined` holds,
  `undefined == "s"` does not, matching `==` on those value classes).
* Truthiness tests are expanded per value class at each use site: objects
  and arrays are always truthy, `undefined` is falsy, `""` and `0` are
  falsy strings/numbers.
* `Date` values are modelled by their millisecond epoch value (`Int`),
  which is exactly what `Date.prototype.getTime`/`new Date(ms)` exchange.
* Asynchronous callbacks are modelled by explicit state passing; where a
  function only schedules asynchronous work, the model records that fact
  in its result and does not run the continuation.
* Unbounded JS recursion/loops take a `fuel : Nat` argument; exhausted
  fuel returns the draining default and theorems quantify over or supply
  sufficient fuel.
-/

namespace DriveClient

/-! ## JavaScript container primitives -/

/-- Insertion-ordered dictionary lookup (`d[k]`, `undefined` when absent). -/
def alistGet {α : Type} (l : List (String × α)) (k : String) : Option α :=
  (l.find? (fun p => p.1 == k)).map (·.2)

/-- Property write `d[k] = v`: overwrite in place, or append a fresh key. -/
def alistSet {α : Type} (l : List (String × α)) (k : String) (v : α) :
    List (String × α) :=
  if (l.find? (fun p => p.1 == k)).isSome then
    l.map (fun p => if p.1 == k then (k, v) else p)
  else
    l ++ [(k, v)]

/-- Property removal `delete d[k]`. -/
def alistRemove {α : Type} (l : List (String × α)) (k : String) :
    List (String × α) :=
  l.filter (fun p => p.1 ≠ k)

/-- `Object.keys(d)` in insertion order. -/
def alistKeys {α : Type} (l : List (String × α)) : List String :=
  l.map (·.1)

/-- Key-set write on a string-keyed object used as a set
(`obj[k] = true`): existing key keeps its position, new key is appended. -/
def objInsert (l : List String) (k : String) : List String :=
  if l.contains k then l else l ++ [k]

/-- `delete obj[k]` on a string-keyed object used as a set. -/
def objRemove (l : List String) (k : String) : List String :=
  l.filter (fun x => x ≠ k)

/-! ### The `Set` abstraction of src/js/set.js
A `Set` stores its items as keys of `items_`; we keep them as an ordered,
duplicate-free `List String`. -/

/-- `Set.fromArray`: add every array element in order (duplicates collapse
onto their first position, like repeated key writes). -/
def setFromArray (l : List String) : List String :=
  l.foldl objInsert []

/-- `Set.prototype.minus`: clone, then remove every item of `that`. -/
def setMinus (a b : List String) : List String :=
  a.filter (fun x => ¬ b.contains x)

/-- `Set.prototype.intersect`: clone, remove items not contained in `that`. -/
def setIntersect (a b : List String) : List String :=
  a.filter (fun x => b.contains x)

/-- `Array.prototype.indexOf` with a possibly-`undefined` needle; strict
comparison against string elements, `-1` when not found. -/
def jsIndexOf (l : List String) (x : Option String) : Int :=
  match x with
  | none => -1
  | some s =>
    match l.findIdx? (fun y => y == s) with
    | some n => (n : Int)
    | none => -1

/-- Truthiness of a possibly-`undefined` string (`""` is falsy). -/
def jTruthyStr (x : Option String) : Bool :=
  match x with
  | some s => s ≠ ""
  | none => false

/-- Truthiness of a possibly-`undefined` number (`0` is falsy). -/
def jTruthyInt (x : Option Int) : Bool :=
  match x with
  | some v => v ≠ 0
  | none => false

/-! ## Remote data model (src/js/remote_files.js) -/

/-- One element of a `parents` array as it flows through the tracker.
`obj` is a raw API parent reference `{id, isRoot}`; `str` is a plain
string, the shape `RemoteEntry.prototype.init_` produces and
`toStorage` persists; `undefVal` is the `undefined` value.  Property access
on a plain string (`"root".isRoot`, `"root".id`) yields `undefined`;
property access on `undefVal` would throw a TypeError in JS — no claim
exercises that case and the accessors below return `undefined` there. -/
inductive JParent : Type
  | obj (id : Option String) (isRoot : Bool)
  | str (s : String)
  | undefVal
deriving DecidableEq, Repr

/-- `parent.isRoot` with JS property-access semantics. -/
def JParent.isRootB : JParent → Bool
  | .obj _ r => r
  | .str _ => false
  | .undefVal => false

/-- `parent.id` with JS property-access semantics. -/
def JParent.idOpt : JParent → Option String
  | .obj i _ => i
  | .str _ => none
  | .undefVal => none

/-- The value a `JParent` denotes when the code uses it directly as an id
string (`RemoteEntry.parents` elements after `init_`'s mapping). -/
def JParent.strOpt : JParent → Option String
  | .obj _ _ => none
  | .str s => some s
  | .undefVal => none

/-- A raw metadata/change payload object (Drive API `FileMetadata`, a
stored entry, or the empty object `{}` that `getChanges_` records for a
deletion).  Absent properties are `none`.  `labelsTrashed` models
`labels.trashed` (`none` when `labels` is absent or lacks `trashed`). -/
structure JMeta : Type where
  id : Option String := none
  etag : Option String := none
  title : Option String := none
  mimeType : Option String := none
  fileSize : Option String := none
  headRevisionId : Option String := none
  md5Checksum : Option String := none
  localTitle : Option String := none
  modifiedDate : Option Int := none
  labelsTrashed : Option Bool := none
  parents : Option (List JParent) := none
deriving DecidableEq, Repr

/-- `Object.keys(payload).length == 0`: the payload is the empty object.
(The model equates "empty object" with "all modelled properties absent".) -/
def JMeta.isEmptyObj (m : JMeta) : Bool :=
  m.id = none ∧ m.etag = none ∧ m.title = none ∧ m.mimeType = none ∧
  m.fileSize = none ∧ m.headRevisionId = none ∧ m.md5Checksum = none ∧
  m.localTitle = none ∧ m.modifiedDate = none ∧ m.labelsTrashed = none ∧
  m.parents = none

/-- `GoogleDrive.MIME_TYPE_FOLDER` (src/unnamed/part_001). -/
def MIME_TYPE_FOLDER : String := "application/vnd.google-apps.folder"

/-- A `RemoteEntry` instance after `init_` ran on some metadata. -/
structure REntry : Type where
  id : Option String := none
  etag : Option String := none
  title : Option String := none
  fileSize : Option String := none
  headRevisionId : Option String := none
  md5Checksum : Option String := none
  localTitle : Option String := none
  modifiedDate : Option Int := none
  parents : Option (List JParent) := none
  isFolder : Bool := false
deriving DecidableEq, Repr

/-- The mapping `init_` applies to each parents element:
`parent.isRoot ? 'root' : parent.id`.  On a plain string both property
reads yield `undefined`, so the element collapses to `undefined`. -/
def initParent (p : JParent) : JParent :=
  if p.isRootB then .str "root"
  else
    match p.idOpt with
    | some s => .str s
    | none => .undefVal

/-- `RemoteEntry.prototype.init_` (also the constructor body): copy the
`COPY_FIELDS` that are present, parse `modifiedDate` when truthy, map
`parents` when present, compute `isFolder`, and force `localTitle = ''`
for the root id. -/
def RemoteEntry.init (md : JMeta) : REntry :=
  let base : REntry :=
    { id := md.id, etag := md.etag, title := md.title,
      fileSize := md.fileSize, headRevisionId := md.headRevisionId,
      md5Checksum := md.md5Checksum, localTitle := md.localTitle,
      modifiedDate := if jTruthyInt md.modifiedDate then md.modifiedDate else none,
      parents := md.parents.map (·.map initParent),
      isFolder := md.id == some "root" || md.mimeType == some MIME_TYPE_FOLDER }
  if md.id == some "root" then { base with localTitle := some "" } else base

/-- `RemoteEntry.prototype.toStorage`: persist the present `COPY_FIELDS`,
`modifiedDate.getTime()` when the Date is present (Date objects are
always truthy), and a copy of `parents` when present (arrays are always
truthy). -/
def RemoteEntry.toStorage (e : REntry) : JMeta :=
  { id := e.id, etag := e.etag, title := e.title, fileSize := e.fileSize,
    headRevisionId := e.headRevisionId, md5Checksum := e.md5Checksum,
    localTitle := e.localTitle,
    modifiedDate := e.modifiedDate,
    parents := e.parents }

/-- Reconstructing a `RemoteEntry` from its stored value, exactly as
`RemoteFileManager.prototype.load` does: `new RemoteEntry(storedValue)`. -/
def RemoteEntry.roundTrip (e : REntry) : REntry :=
  RemoteEntry.init (RemoteEntry.toStorage e)

/-! ## RemoteFileManager (src/js/remote_files.js) -/

/-- The in-memory state `parseChanges_`/`findPaths`/`resolvePendingChange`
operate on: the resolved snapshot `idEntryMap` and the raw pending-change
buffer `pendingChanges`. -/
structure RFM : Type where
  idEntryMap : List (String × REntry) := []
  pendingChanges : List (String × JMeta) := []
deriving DecidableEq, Repr

/-- The parents array `isFileManaged_` walks: `newEntry.parents` (the raw
pending payload, replaced by the `{parents: []}` dummy when the payload is
the empty object) concatenated with `knownEntry.parents` (a `RemoteEntry`,
whose parents elements are plain strings after `init_`).  A missing
`parents` property is modelled as the empty contribution (src:
`concat(undefined)` would instead append an `undefined` element, and
`.parents` on the left would throw; no claim exercises entries without a
`parents` property).  Likewise, when the pending payload is `undefined`
but a known entry exists the source reaches `Object.keys(undefined)` and
throws; the model continues with the known parents, and no claim
exercises that case either. -/
def managedParents (newEntry : Option JMeta) (knownEntry : Option REntry) :
    List JParent :=
  let dummyOrNew : List JParent :=
    match newEntry with
    | none => []
    | some m => if m.isEmptyObj then [] else (m.parents.getD [])
  let knownPart : List JParent :=
    match knownEntry with
    | none => []
    | some e => e.parents.getD []
  dummyOrNew ++ knownPart

/-- `RemoteFileManager.prototype.isFileManaged_`: `'root'` is managed;
otherwise some parent of the pending payload or the known entry must have
a truthy `isRoot` or itself be managed by id.  The recursion is fuelled
(the source recurses without a visited set and would not terminate on a
parent cycle). -/
def isFileManaged (m : RFM) : Nat → Option String → Bool
  | 0, _ => false
  | _ + 1, none => false
  | fuel + 1, some id =>
    if id = "root" then true
    else
      let newEntry := alistGet m.pendingChanges id
      let knownEntry := alistGet m.idEntryMap id
      if newEntry = none ∧ knownEntry = none then false
      else
        (managedParents newEntry knownEntry).any (fun parent =>
          parent.isRootB || isFileManaged m fuel parent.idOpt)

/-- `RemoteFileManager.prototype.findPaths`, fuelled.  Returns root-first
id paths; path components are `Option String` because `RemoteEntry`
parents elements can be `undefined`.  An entry whose `parents` property is
absent contributes no paths (src: `forEach` of `undefined` would throw;
no claim exercises that case). -/
def findPaths (m : RFM) : Nat → Option String → List (List (Option String))
  | 0, _ => []
  | fuel + 1, id =>
    if id = some "root" then [[some "root"]]
    else
      match id with
      | none => []
      | some i =>
        let entry : Option REntry :=
          match alistGet m.idEntryMap i with
          | some e => some e
          | none =>
            match alistGet m.pendingChanges i with
            | none => none
            | some pc =>
              if pc.isEmptyObj then none else some (RemoteEntry.init pc)
        match entry with
        | none => []
        | some e =>
          (e.parents.getD []).flatMap (fun parent =>
            (findPaths m fuel parent.strOpt).map (fun parentPath =>
              parentPath ++ [some i]))

/-- A classified change record as `parsePendingChange_` builds it: a
loosely-typed object whose facets are set independently. -/
structure Change : Type where
  id : Option String := none
  created : Bool := false
  deleted : Bool := false
  modified : Bool := false
  renamedFrom : Option String := none
  renamedTo : Option String := none
  movedFrom : Option (List String) := none
  movedTo : Option (List String) := none
  newEntry : Option REntry := none
deriving DecidableEq, Repr

/-- `RemoteFileManager.prototype.getParentId_` as applied to a parents
element: `parent.isRoot ? 'root' : parent.id`.  When the element is a
plain string (a `RemoteEntry` parents element) both reads yield
`undefined`, which the `Set` then coerces to the key `"undefined"`. -/
def getParentIdKey (p : JParent) : String :=
  if p.isRootB then "root" else (p.idOpt.getD "undefined")

/-- `RemoteFileManager.prototype.parseParentsChange_`: symmetric set
difference of the old and new parent-id sets.  (The source calls
`Array.prototype.transform`, which is defined nowhere in the repository
and would throw; the model uses `map`, the evident intent.  No claim
depends on this branch completing.) -/
def parseParentsChange (oldEntry newEntry : REntry) (c : Change) : Change :=
  let oldParents := setFromArray ((oldEntry.parents.getD []).map getParentIdKey)
  let newParents := setFromArray ((newEntry.parents.getD []).map getParentIdKey)
  { c with movedFrom := some (setMinus oldParents newParents),
           movedTo := some (setMinus newParents oldParents) }

/-- `RemoteFileManager.prototype.parsePendingChange_`.  Returns the
updated manager (the source mutates `this`) and the change record, with
`none` standing for both the `null` of the unmanaged branch and the
`undefined` of the echo branch. -/
def parsePendingChange (fuel : Nat) (m : RFM) (id : String) :
    RFM × Option Change :=
  if ¬ isFileManaged m fuel (some id) then
    ({ m with pendingChanges := alistRemove m.pendingChanges id }, none)
  else
    match alistGet m.pendingChanges id with
    | none => (m, none)
    | some pendingChange =>
      match alistGet m.idEntryMap id with
      | some knownEntry =>
        if jTruthyStr knownEntry.etag ∧ knownEntry.etag = pendingChange.etag then
          -- The change is an echo of this client's own write: backfill
          -- headRevisionId if absent, then drop the pending change.
          let knownEntry1 :=
            if knownEntry.headRevisionId = none ∧
               jTruthyStr pendingChange.headRevisionId then
              { knownEntry with headRevisionId := pendingChange.headRevisionId }
            else knownEntry
          ({ m with idEntryMap := alistSet m.idEntryMap id knownEntry1,
                    pendingChanges := alistRemove m.pendingChanges id }, none)
        else
          if pendingChange.isEmptyObj then
            (m, some { id := some id, deleted := true })
          else if pendingChange.labelsTrashed.getD false then
            (m, some { id := some id, deleted := true })
          else
            let c0 : Change := { id := some id }
            let c1 :=
              if knownEntry.fileSize ≠ pendingChange.fileSize ∨
                 knownEntry.md5Checksum ≠ pendingChange.md5Checksum ∨
                 knownEntry.headRevisionId ≠ pendingChange.headRevisionId then
                { c0 with modified := true }
              else c0
            let c2 :=
              if knownEntry.title ≠ pendingChange.title then
                { c1 with renamedFrom := knownEntry.title,
                          renamedTo := pendingChange.title }
              else c1
            let newEntry := RemoteEntry.init pendingChange
            let c3 := { c2 with newEntry := some newEntry }
            (m, some (parseParentsChange knownEntry newEntry c3))
      | none =>
        (m, some { created := true,
                   newEntry := some (RemoteEntry.init pendingChange) })

/-- `RemoteFileManager.prototype.parseChanges_`: classify every id of the
pending buffer in insertion order; falsy results are skipped, and the
unmanaged/echo branches prune the buffer as they go. -/
def parseChanges (fuel : Nat) (m : RFM) : RFM × List (String × Change) :=
  (alistKeys m.pendingChanges).foldl
    (fun acc id =>
      let (m1, c?) := parsePendingChange fuel acc.1 id
      match c? with
      | some c => (m1, alistSet acc.2 id c)
      | none => (m1, acc.2))
    (m, [])

/-- `RemoteFileManager.prototype.ignorePendingChange`: drop a pending
change without promoting any entry. -/
def ignorePendingChange (m : RFM) (id : String) : RFM :=
  { m with pendingChanges := alistRemove m.pendingChanges id }

/-- Manager state together with the persisted copy of the pending-change
buffer (the value stored under `storageKeys.remote.pendingChanges`). -/
structure RFMS : Type where
  mem : RFM := {}
  storedPendingChanges : List (String × JMeta) := []
deriving DecidableEq, Repr

/-- `RemoteFileManager.prototype.update` restricted to
`opt_items = ['pendingChanges']`, the call the resolution paths make:
the buffer is written back only when it is non-empty
(`... && Object.keys(this.pendingChanges).length > 0`); the storage-set
completion callback is invoked either way. -/
def updatePendingChangesKey (s : RFMS) : RFMS :=
  if s.mem.pendingChanges.length > 0 then
    { s with storedPendingChanges := s.mem.pendingChanges }
  else s

/-- `RemoteFileManager.prototype.resolvePendingChange`: guarded by the
etag the operation observed.  The returned `Bool` records whether the
completion callback is invoked (the guarded branch returns without
calling `update`, so the callback never fires there). -/
def resolvePendingChange (s : RFMS) (id : String) (etag : Option String)
    (newEntry : REntry) : RFMS × Bool :=
  match alistGet s.mem.pendingChanges id with
  | none => (s, false)
  | some pendingChange =>
    if pendingChange.etag ≠ etag then (s, false)
    else
      let mem1 : RFM :=
        { s.mem with
          idEntryMap := alistSet s.mem.idEntryMap id newEntry,
          pendingChanges := alistRemove s.mem.pendingChanges id }
      (updatePendingChangesKey { s with mem := mem1 }, true)

/-! ## SyncEngine classification and remote-create handling
(src/js/sync_engine.js) -/

/-- The result of `SyncEngine.prototype.classifyRemoteChanges_`. -/
structure Classified : Type where
  created : List String := []
  modified : List String := []
  renamed : List String := []
  moved : List String := []
  deleted : List String := []
deriving DecidableEq, Repr

/-- `SyncEngine.prototype.classifyRemoteChanges_`: bucket each change id
by its facets.  `created`/`deleted` are exclusive; `modified`, `renamed`
(both endpoints truthy) and `moved` (both `Set` objects present, hence
truthy) may co-occur. -/
def classifyRemoteChanges (changes : List (String × Change)) : Classified :=
  changes.foldl
    (fun r (p : String × Change) =>
      let (id, change) := p
      if change.created then { r with created := r.created ++ [id] }
      else if change.deleted then { r with deleted := r.deleted ++ [id] }
      else
        let r1 := if change.modified then { r with modified := r.modified ++ [id] } else r
        let r2 :=
          if jTruthyStr change.renamedFrom ∧ jTruthyStr change.renamedTo then
            { r1 with renamed := r1.renamed ++ [id] }
          else r1
        if change.movedFrom.isSome ∧ change.movedTo.isSome then
          { r2 with moved := r2.moved ++ [id] }
        else r2)
    {}

/-- The slice of `SyncEngine` state `handleRemoteCreate_` reads and
writes: the remote manager and the classification computed by `sync`. -/
structure SEState : Type where
  remote : RFM := {}
  classified : Classified := {}
deriving DecidableEq, Repr

/-- How `handleRemoteCreate_` finishes synchronously: `{completed: true}`,
`{blockedOn: [...]}`, or `undefined` after kicking off the asynchronous
local-creation chain (that chain is not modelled; the claim under test
concerns the synchronous classification path). -/
inductive HRet : Type
  | completedSync
  | blocked (blockedOn : List String)
  | async
deriving DecidableEq, Repr

/-- The parent loop of `handleRemoteCreate_`: skip `'root'`, collect
`'remote-' + parentId` for parents whose own create task is classified
`created` (`indexOf != -1`), and bail out discarding the change when
`classified.deleted.indexOf(parentId)` is *truthy* — which is the
source's actual test: truthy means the index is nonzero, so `-1`
("not in the deleted list") also triggers the branch.  `Sum.inr` signals
the discard. -/
def hrcScan (cls : Classified) : List JParent → List String →
    Sum (List String) Unit
  | [], blockedOn => .inl blockedOn
  | parent :: rest, blockedOn =>
    let parentId := parent.strOpt
    if parentId = some "root" then hrcScan cls rest blockedOn
    else if jsIndexOf cls.created parentId ≠ -1 then
      hrcScan cls rest
        (blockedOn ++ ["remote-" ++ parentId.getD "undefined"])
    else if jsIndexOf cls.deleted parentId ≠ 0 then .inr ()
    else hrcScan cls rest blockedOn

/-- `SyncEngine.prototype.handleRemoteCreate_`: resolve the id's paths
(no paths → complete with no work); scan the new entry's parents; on the
discard signal call `ignorePendingChange` and complete; otherwise block
when anything was collected, else start the asynchronous creation. -/
def handleRemoteCreate (fuel : Nat) (st : SEState) (id : String)
    (newEntry : REntry) : SEState × HRet :=
  let paths := findPaths st.remote fuel (some id)
  if paths.length = 0 then (st, .completedSync)
  else
    match hrcScan st.classified (newEntry.parents.getD []) [] with
    | .inr () =>
      ({ st with remote := ignorePendingChange st.remote id }, .completedSync)
    | .inl blockedOn =>
      if blockedOn.length > 0 then (st, .blocked blockedOn)
      else (st, .async)

/-! ## LocalFileManager (src/unnamed/part_007, src/js/local_files.js) -/

/-- A `LocalEntry` as `compare_` and `createEntry` see it: scanned files
carry `size` and `modifiedTime` (directories carry neither), and entries
materialised for a remote create carry `remoteId`. -/
structure LEntry : Type where
  size : Option Int := none
  modifiedTime : Option Int := none
  remoteId : Option String := none
deriving DecidableEq, Repr

/-- The classification `compare_` returns. -/
structure LocalChanges : Type where
  createdPaths : List String := []
  modifiedPaths : List String := []
  deletedPaths : List String := []
deriving DecidableEq, Repr

/-- `LocalFileManager.prototype.compare_` (identical logic to
`compare` of src/js/local_files.js modulo the `metadata.` nesting):
set differences for created/deleted, and for common paths a modified mark
when the fresh entry has a `size` (i.e. is a file) and size or
modification time differ.  `modifiedTime` is compared as an `Option`;
the source calls `.getTime()` on both sides and would throw if either
were absent — the claims only exercise entries carrying both. -/
def compare (knownMap freshMap : List (String × LEntry)) : LocalChanges :=
  let currentPaths := setFromArray (alistKeys freshMap)
  let knownPaths := setFromArray (alistKeys knownMap)
  let createdPaths := setMinus currentPaths knownPaths
  let deletedPaths := setMinus knownPaths currentPaths
  let commonPaths := setIntersect currentPaths knownPaths
  let modifiedPaths := commonPaths.foldl
    (fun acc path =>
      match alistGet freshMap path, alistGet knownMap path with
      | some currentEntry, some knownEntry =>
        if currentEntry.size ≠ none then
          if currentEntry.size ≠ knownEntry.size ∨
             currentEntry.modifiedTime ≠ knownEntry.modifiedTime then
            objInsert acc path
          else acc
        else acc
      | _, _ => acc)
    []
  { createdPaths := createdPaths, modifiedPaths := modifiedPaths,
    deletedPaths := deletedPaths }

/-- `LocalFileManager.prototype.getFullPath_`: parent path (`'/'`
collapses to `''`), sanitized title, a trailing `/` for directories, and
a `' (n)'` suffix when a truthy sequence number is supplied.  The
sanitization policy is platform-dependent (`sanitizeFileName_`), so the
model takes it as a parameter. -/
def getFullPath (sanitize : String → String) (parentPath title : String)
    (isDirectory : Bool) (seq : Option Nat) : String :=
  let pp := if parentPath = "/" then "" else parentPath
  pp ++ sanitize title ++ (if isDirectory then "/" else "") ++
    (match seq with
     | some n => if n = 0 then "" else " (" ++ toString n ++ ")"
     | none => "")

/-- The collision loop of `LocalFileManager.prototype.createEntry`:
starting from the suffix-free candidate, try `' (1)'`, `' (2)'`, … while
the candidate is a key of `pathEntryMap`.  Fuelled; `none` means the fuel
ran out while still colliding. -/
def collisionLoop (keys : List String) (cand : Nat → String) :
    Nat → String → Nat → Option (String)
  | fuel, fullPath, seq =>
    if ¬ keys.contains fullPath then some fullPath
    else
      match fuel with
      | 0 => none
      | f + 1 => collisionLoop keys cand f (cand seq) (seq + 1)

/-- The flags `createEntry` passes to `getFile`/`getDirectory`:
`{create: true, exclusive: !isDirectory}`. -/
structure CreateFlags : Type where
  create : Bool
  exclusive : Bool
deriving DecidableEq, Repr

/-- `LocalFileManager.prototype.createEntry`, success path: pick the
first non-colliding candidate path, create the filesystem object there
with `{create: true, exclusive: !isDirectory}`, insert a fresh entry
holding `remoteId` into `pathEntryMap`, and persist.  The filesystem
call itself is external; the model returns the path, the flags and the
updated map. -/
def createEntry (pathEntryMap : List (String × LEntry))
    (sanitize : String → String) (parentPath title : String)
    (isDirectory : Bool) (remoteId : String) (fuel : Nat) :
    Option (String × CreateFlags × List (String × LEntry)) :=
  let cand := fun (n : Nat) =>
    getFullPath sanitize parentPath title isDirectory
      (if n = 0 then none else some n)
  match collisionLoop (alistKeys pathEntryMap) cand fuel (cand 0) 1 with
  | none => none
  | some fullPath =>
    some (fullPath, ⟨true, !isDirectory⟩,
      alistSet pathEntryMap fullPath { remoteId := some remoteId })

/-! ## TaskQueue (src/unnamed/part_005)

Task callbacks are functions; the model identifies a task by its name and
lets an external behaviour function `beh : String → Nat → TaskResult`
decide what each callback invocation returns (`Nat` is a global
invocation counter, so a task re-invoked after unblocking may answer
differently).  An `onComplete` a callback stores for later is an
asynchronous completion and is delivered as a separate `QEvent.complete`
event. -/

/-- What a task callback returns synchronously: `undefined` (work
continues asynchronously), `{completed: true}`, or `{blockedOn: [...]}`. -/
inductive TaskResult : Type
  | async
  | completed
  | blockedOn (deps : List String)
deriving DecidableEq, Repr

/-- One slot: running set, pending set (insertion-ordered name sets) and
the parallelism ceiling (`getSlot_` default 1). -/
structure Slot : Type where
  running : List String := []
  pending : List String := []
  maxParallel : Nat := 1
deriving DecidableEq, Repr

/-- One entry of `blockingTasks_`: the slot the task came from and the
wait-set it is parked under (the callback is recoverable from the task
name). -/
structure BlockInfo : Type where
  slotName : String
  blockedOn : List String
deriving DecidableEq, Repr

/-- The whole `TaskQueue` state. -/
structure QState : Type where
  tasks : List (String × Slot) := []
  blocking : List (String × BlockInfo) := []
  currentId : Nat := 1
  completedFlag : Bool := false
  hasCompletedCallback : Bool := false
  tick : Nat := 0
deriving DecidableEq, Repr

/-- Where `findTask_` locates a task. -/
inductive TaskLoc : Type
  | runningIn (slotName : String)
  | pendingIn (slotName : String)
  | blockedWith (info : BlockInfo)
deriving DecidableEq, Repr

/-- The slot scan of `TaskQueue.prototype.findTask_`: first slot whose
running set holds the name wins, then the pending set, in slot insertion
order. -/
def findTaskInSlots (name : String) : List (String × Slot) → Option TaskLoc
  | [] => none
  | (sn, sl) :: rest =>
    if sl.running.contains name then some (.runningIn sn)
    else if sl.pending.contains name then some (.pendingIn sn)
    else findTaskInSlots name rest

/-- `TaskQueue.prototype.findTask_`: scan the slots, then fall back to
the blocking table. -/
def findTask (s : QState) (name : String) : Option TaskLoc :=
  match findTaskInSlots name s.tasks with
  | some loc => some loc
  | none => (alistGet s.blocking name).map .blockedWith

/-- The pending-set delete `delete taskInfo.slot.pending[blockedTaskName]`
of `tryBlockTask`. -/
def removePendingTask (s : QState) (slotName name : String) : QState :=
  match alistGet s.tasks slotName with
  | some sl =>
    { s with tasks :=
      (alistSet s.tasks slotName
        { sl with pending := objRemove sl.pending name }) }
  | none => s

/-- The two statements `slot.pending[candidate] = slot.running[candidate];
delete slot.running[candidate]` of `runTasksForSlot_`'s blocked branch. -/
def unpromoteTask (s : QState) (slotName name : String) : QState :=
  match alistGet s.tasks slotName with
  | some sl =>
    { s with tasks :=
      (alistSet s.tasks slotName
        { sl with pending := objInsert sl.pending name,
                  running := objRemove sl.running name }) }
  | none => s

/-- The statement `delete slot.running[taskName]` of `onTaskCompleted_`. -/
def removeRunningTask (s : QState) (slotName name : String) : QState :=
  match alistGet s.tasks slotName with
  | some sl =>
    { s with tasks :=
      (alistSet s.tasks slotName
        { sl with running := objRemove sl.running name }) }
  | none => s

/-- `TaskQueue.prototype.tryBlockTask`.  Returns the updated state and
the source's return value (`false`, `true`, or `undefined` from the
fall-through paths).  The dependency filter keeps exactly the named
dependencies that `findTask_` still finds anywhere (pending, running or
blocked) and that differ from the blocked task itself; the filtered list
then becomes the wait-set through `Set.fromArray`. -/
def tryBlockTask (s : QState) (blockedTaskName : String)
    (deps : List String) : QState × Option Bool :=
  -- The filter is pure, so hoisting it above the early-return guard is
  -- observationally identical to the source order.
  let blockedOn := deps.filter (fun taskName =>
    (findTask s taskName).isSome ∧ taskName ≠ blockedTaskName)
  match findTask s blockedTaskName with
  | none => (s, some false)
  | some (.runningIn _) => (s, some false)
  | some (.pendingIn slotName) =>
    if blockedOn.length > 0 then
      let s1 := { s with blocking :=
        (alistSet s.blocking blockedTaskName ⟨slotName, setFromArray blockedOn⟩) }
      (removePendingTask s1 slotName blockedTaskName, none)
    else (s, none)
  | some (.blockedWith info) =>
    -- `Set.add.apply(taskInfo.blockedOn, blockedOn)`: merge the
    -- filtered dependencies into the existing wait-set, return true.
    ({ s with blocking :=
        (alistSet s.blocking blockedTaskName
          { info with blockedOn := blockedOn.foldl objInsert info.blockedOn }) },
     some true)

/-- The slot write `details.slot.pending[name] = details.callback` of
`checkBlockingTasks_`: append the unblocked task to its slot's pending
set. -/
def moveBlockedToPending (s : QState) (slotName name : String) : QState :=
  match alistGet s.tasks slotName with
  | some sl =>
    { s with tasks :=
      (alistSet s.tasks slotName
        { sl with pending := objInsert sl.pending name }) }
  | none => s

/-- One visit of the `dictForEach` in `checkBlockingTasks_`: remove the
completed name from this entry's wait-set; when the wait-set is empty,
move the task back to its slot's pending set and drop the entry. -/
def checkBlockingEntry (taskName : String) (s : QState) (name : String)
    (details : BlockInfo) : QState × Bool :=
  let bo :=
    if details.blockedOn.contains taskName then
      objRemove details.blockedOn taskName
    else details.blockedOn
  if bo.length = 0 then
    let s1 := moveBlockedToPending s details.slotName name
    ({ s1 with blocking := alistRemove s1.blocking name }, true)
  else
    ({ s with blocking :=
        (alistSet s.blocking name { details with blockedOn := bo }) }, false)

/-- `TaskQueue.prototype.checkBlockingTasks_`: visit every blocking entry
(in insertion order; a visit only mutates its own entry and a slot, so
folding over the original entries is faithful), reporting whether any
task was unblocked. -/
def checkBlockingTasks (s : QState) (taskName : String) : QState × Bool :=
  s.blocking.foldl
    (fun acc p =>
      let r := checkBlockingEntry taskName acc.1 p.1 p.2
      (r.1, acc.2 || r.2))
    (s, false)

/-- `TaskQueue.prototype.checkCompleted_`: when every slot has empty
running and pending sets and a completion callback is registered and has
not fired yet, fire it (modelled by latching `completedFlag`). -/
def checkCompleted (s : QState) : QState :=
  if s.tasks.all (fun p => p.2.running.length = 0 ∧ p.2.pending.length = 0) then
    if s.hasCompletedCallback ∧ ¬ s.completedFlag then
      { s with completedFlag := true }
    else s
  else s

/-- `TaskQueue.prototype.getSlot_`: fetch the slot, creating it with
`maxParallel = 1` on first use. -/
def getSlot (s : QState) (name : String) : QState × Slot :=
  match alistGet s.tasks name with
  | some sl => (s, sl)
  | none =>
    let sl : Slot := {}
    ({ s with tasks := s.tasks ++ [(name, sl)] }, sl)

/-- `TaskQueue.prototype.setMaxParallelTasks`. -/
def setMaxParallelTasks (s : QState) (slotName : String) (maxParallel : Nat) :
    QState :=
  let (s1, sl) := getSlot s slotName
  { s1 with tasks := alistSet s1.tasks slotName { sl with maxParallel := maxParallel } }

/-- `TaskQueue.prototype.queue`: reset the completed latch, create the
slot if needed, auto-generate a name for a falsy task name
(`'_unnamed_' + currentId_`), and append the task to the slot's pending
set.  (The source `console.assert`s name uniqueness; asserts do not stop
execution and are not modelled.) -/
def queueTask (s : QState) (slotName : String) (taskName : Option String) :
    QState :=
  let s0 := { s with completedFlag := false }
  let g := getSlot s0 slotName
  let s1 := g.1
  let sl := g.2
  let unnamed := "_unnamed_" ++ toString s1.currentId
  match taskName with
  | some n =>
    if n = "" then
      { s1 with currentId := s1.currentId + 1,
                tasks :=
                  (alistSet s1.tasks slotName
                    { sl with pending := objInsert sl.pending unnamed }) }
    else
      { s1 with tasks :=
          (alistSet s1.tasks slotName
            { sl with pending := objInsert sl.pending n }) }
  | none =>
    { s1 with currentId := s1.currentId + 1,
              tasks :=
                (alistSet s1.tasks slotName
                  { sl with pending := objInsert sl.pending unnamed }) }

mutual

/-- `TaskQueue.prototype.runTasksForSlot_`: promote the first pending
task while `running.size < maxParallel`, invoke its callback, and handle
the three completion shapes.  Every recursive call spends one unit of
fuel. -/
def runTasksForSlot (beh : String → Nat → TaskResult) :
    Nat → QState → String → QState
  | 0, s, _ => s
  | fuel + 1, s, slotName =>
    match alistGet s.tasks slotName with
    | none => s
    | some slot =>
      if slot.running.length ≥ slot.maxParallel ∨ slot.pending.length = 0 then s
      else
        match slot.pending with
        | [] => s
        | candidate :: _ =>
          let slot1 : Slot := { slot with
            running := objInsert slot.running candidate,
            pending := objRemove slot.pending candidate }
          let s1 := { s with tasks := alistSet s.tasks slotName slot1,
                             tick := s.tick + 1 }
          match beh candidate s.tick with
          | .async => runTasksForSlot beh fuel s1 slotName
          | .completed =>
            runTasksForSlot beh fuel
              (onTaskCompleted beh fuel s1 slotName candidate) slotName
          | .blockedOn deps =>
            runTasksForSlot beh fuel
              (tryBlockTask (unpromoteTask s1 slotName candidate)
                candidate deps).1 slotName

/-- `TaskQueue.prototype.onTaskCompleted_`: drop the task from its slot's
running set, release blocked tasks, re-run (all slots when something was
unblocked, else just this slot), and check for global completion. -/
def onTaskCompleted (beh : String → Nat → TaskResult) :
    Nat → QState → String → String → QState
  | 0, s, _, _ => s
  | fuel + 1, s, slotName, taskName =>
    let s1 := removeRunningTask s slotName taskName
    let r := checkBlockingTasks s1 taskName
    let s3 :=
      if r.2 then runSlots beh fuel r.1 (alistKeys r.1.tasks)
      else runTasksForSlot beh fuel r.1 slotName
    checkCompleted s3

/-- The `for (var slotName in this.tasks_)` loop shared by `run` and the
unblocking path. -/
def runSlots (beh : String → Nat → TaskResult) :
    Nat → QState → List String → QState
  | 0, s, _ => s
  | _ + 1, s, [] => s
  | fuel + 1, s, n :: rest =>
    runSlots beh fuel (runTasksForSlot beh fuel s n) rest

end

/-- `TaskQueue.prototype.run`: optionally register the completion
callback, then run every slot. -/
def runQueue (beh : String → Nat → TaskResult) (fuel : Nat) (s : QState)
    (hasCallback : Bool) : QState :=
  let s1 := if hasCallback then { s with hasCompletedCallback := true } else s
  runSlots beh fuel s1 (alistKeys s1.tasks)

/-- The external stimuli a `TaskQueue` receives once configured: queuing
a task, a `run()` call, and the asynchronous completion callback of a
previously promoted task firing (`onTaskCompleted_` bound to that task's
slot and name). -/
inductive QEvent : Type
  | queue (slotName : String) (taskName : Option String)
  | run (hasCallback : Bool)
  | complete (slotName : String) (taskName : String)
deriving DecidableEq, Repr

/-- Apply one event. -/
def execEvent (beh : String → Nat → TaskResult) (fuel : Nat) (s : QState) :
    QEvent → QState
  | .queue sn tn => queueTask s sn tn
  | .run hc => runQueue beh fuel s hc
  | .complete sn tn => onTaskCompleted beh fuel s sn tn

/-- Apply a sequence of events. -/
def execEvents (beh : String → Nat → TaskResult) (fuel : Nat)
    (s : QState) : List QEvent → QState
  | [] => s
  | e :: rest => execEvents beh fuel (execEvent beh fuel s e) rest

/-! ## Concrete scenario states used by the verification results -/

/-- Metadata of a remotely created folder directly under the root, as the
changes feed delivers it. -/
def mdC5 : JMeta :=
  { id := some "F1", etag := some "e1", title := some "Folder",
    mimeType := some MIME_TYPE_FOLDER, modifiedDate := some 1234,
    fileSize := none, parents := some [.obj none true] }

/-- The `RemoteEntry` built from `mdC5`. -/
def eC5 : REntry := RemoteEntry.init mdC5

/-- A known entry for id `A` whose known parent chain is exactly
`['root']`. -/
def knownC2 : REntry :=
  RemoteEntry.init
    { id := some "A", etag := some "e0", title := some "a.txt",
      parents := some [.obj none true] }

/-- Manager state where id `A` is known (parent `root`) and carries an
empty pending payload — the shape of a remote deletion of a known file. -/
def mgrC2 : RFM :=
  { idEntryMap := [("A", knownC2)], pendingChanges := [("A", {})] }

/-- The pending payload of a remotely created file `A` whose only parent
is the pre-existing folder `P`. -/
def pcC1 : JMeta :=
  { id := some "A", etag := some "eA", title := some "a.txt",
    parents := some [.obj (some "P") false] }

/-- The known, unchanged parent folder `P` under the root. -/
def entC1P : REntry :=
  RemoteEntry.init
    { id := some "P", etag := some "eP", title := some "P",
      mimeType := some MIME_TYPE_FOLDER, parents := some [.obj none true] }

/-- Manager state for the remote-create scenario: `P` known, `A` pending. -/
def mgrC1 : RFM :=
  { idEntryMap := [("P", entC1P)], pendingChanges := [("A", pcC1)] }

/-- The `RemoteEntry` the create task receives for `A`. -/
def newC1 : REntry := RemoteEntry.init pcC1

/-- Classification when the cycle saw only the creation of `A`
(`P` is unchanged, hence in no bucket). -/
def clsC1a : Classified :=
  classifyRemoteChanges [("A", { created := true, newEntry := some newC1 })]

/-- Classification when the same cycle also saw the deletion of `P`. -/
def clsC1b : Classified :=
  classifyRemoteChanges
    [("A", { created := true, newEntry := some newC1 }),
     ("P", { deleted := true })]

/-- Known folder `F2` directly under the root. -/
def entC6F2 : REntry :=
  RemoteEntry.init
    { id := some "F2", etag := some "e2", title := some "F2",
      mimeType := some MIME_TYPE_FOLDER, parents := some [.obj none true] }

/-- Known file `X` with the two parents `root` and `F2`. -/
def entC6X : REntry :=
  RemoteEntry.init
    { id := some "X", etag := some "e3", title := some "x",
      parents := some [.obj none true, .obj (some "F2") false] }

/-- Manager state for the multi-parent fan-out scenario of spec §8. -/
def mgrC6 : RFM := { idEntryMap := [("F2", entC6F2), ("X", entC6X)] }

/-- The entry a completed remote-to-local operation promotes in the
resolution scenario. -/
def eC7new : REntry :=
  RemoteEntry.init
    { id := some "A", etag := some "e", title := some "a.txt",
      parents := some [.obj none true] }

/-- Manager-with-storage state holding exactly one pending change, with
the storage copy of the buffer in sync. -/
def sC7 : RFMS :=
  { mem := { pendingChanges := [("A", { etag := some "e" })] },
    storedPendingChanges := [("A", { etag := some "e" })] }

/-- Scheduler state with one slot (`maxParallel = 2`) in which task `A`
is currently running and task `B` is pending. -/
def sC3 : QState :=
  { tasks := [("slot1",
      { running := ["A"], pending := ["B"], maxParallel := 2 })] }

/-- The slot-limit invariant of the scheduler: no slot's running set ever
exceeds its configured ceiling. -/
def SlotInv (s : QState) : Prop :=
  ∀ p ∈ s.tasks, (p.2 : Slot).running.length ≤ p.2.maxParallel

instance (s : QState) : Decidable (SlotInv s) :=
  List.decidableBAll _ s.tasks

/-- The scheduler configuration `SyncEngine`'s constructor installs. -/
def s0C4 : QState :=
  setMaxParallelTasks (setMaxParallelTasks (setMaxParallelTasks
    (setMaxParallelTasks {} "upload" 2) "download" 2) "local" 100) "remote" 5

/-- Behaviour where every task runs asynchronously. -/
def behC4 : String → Nat → TaskResult := fun _ _ => .async

/-- Queue five tasks into the `upload` slot (`maxParallel = 2`), run,
then complete two of them. -/
def evsC4 : List QEvent :=
  [.queue "upload" (some "t1"), .queue "upload" (some "t2"),
   .queue "upload" (some "t3"), .queue "upload" (some "t4"),
   .queue "upload" (some "t5"), .run true,
   .complete "upload" "t1", .complete "upload" "t2"]

/-- A fresh-scan file entry used by the rename scenario. -/
def entC8 : LEntry := { size := some 10, modifiedTime := some 5 }

/-- Local map already holding the base name and its first suffix, so the
collision loop must reach `' (2)'`. -/
def mapC9 : List (String × LEntry) := [("f", {}), ("f (1)", {})]

/-! ## Claim results -/

/-- C5: failing-input evaluation.  Serialising a non-root folder entry
with `toStorage` and reconstructing it does NOT reproduce every field:
the scalar fields and the millisecond `modifiedDate` survive, but the
parents id list `['root']` degrades to `[undefined]` (because `init_`
reads `.isRoot`/`.id` off plain strings) and `isFolder` collapses to
`false` (because `mimeType` is never stored). -/
theorem c5_roundtrip_corrupts_parents_and_isFolder :
    eC5.parents = some [JParent.str "root"] ∧
    eC5.isFolder = true ∧
    (RemoteEntry.roundTrip eC5).parents = some [JParent.undefVal] ∧
    (RemoteEntry.roundTrip eC5).isFolder = false ∧
    (RemoteEntry.roundTrip eC5).id = eC5.id ∧
    (RemoteEntry.roundTrip eC5).etag = eC5.etag ∧
    (RemoteEntry.roundTrip eC5).title = eC5.title ∧
    (RemoteEntry.roundTrip eC5).fileSize = eC5.fileSize ∧
    (RemoteEntry.roundTrip eC5).md5Checksum = eC5.md5Checksum ∧
    (RemoteEntry.roundTrip eC5).headRevisionId = eC5.headRevisionId ∧
    (RemoteEntry.roundTrip eC5).modifiedDate = eC5.modifiedDate ∧
    RemoteEntry.roundTrip eC5 ≠ eC5 := by
  decide

/-- C2: failing-input evaluation.  Id `A` carries the empty pending
payload and a known entry whose known parent chain is `['root']` —
exactly the claim's premise — yet `parseChanges` classifies it
unmanaged (`isFileManaged_` reads `.isRoot`/`.id` off the known entry's
plain-string parents and gets `undefined`), drops the id from the
pending buffer, and emits no `deleted` change record. -/
theorem c2_empty_payload_deletion_dropped :
    alistGet mgrC2.pendingChanges "A" = some {} ∧
    JMeta.isEmptyObj {} = true ∧
    alistGet mgrC2.idEntryMap "A" = some knownC2 ∧
    knownC2.parents = some [JParent.str "root"] ∧
    isFileManaged mgrC2 10 (some "A") = false ∧
    (parseChanges 10 mgrC2).2 = [] ∧
    (parseChanges 10 mgrC2).1.pendingChanges = [] := by
  decide

/-- C1: failing-input evaluation.  The deleted-parent test of
`handleRemoteCreate_` is `if (classified.deleted.indexOf(parentId))`,
which is truthy exactly when the index is nonzero — so (a) with the
parent `P` in NO classification bucket (`deleted = []`, index `-1`) the
pending create of `A` is discarded via `ignorePendingChange`, and
(b) with `P` actually classified deleted (`deleted = ['P']`, index `0`)
the change is NOT discarded and the task proceeds to the asynchronous
creation path — both directions of the claim's iff fail. -/
theorem c1_deleted_parent_test_inverted :
    newC1.parents = some [JParent.str "P"] ∧
    clsC1a.created = ["A"] ∧ clsC1a.deleted = [] ∧
    (handleRemoteCreate 10 ⟨mgrC1, clsC1a⟩ "A" newC1).2 = HRet.completedSync ∧
    (handleRemoteCreate 10 ⟨mgrC1, clsC1a⟩ "A" newC1).1.remote.pendingChanges
      = [] ∧
    clsC1b.deleted = ["P"] ∧
    (handleRemoteCreate 10 ⟨mgrC1, clsC1b⟩ "A" newC1).2 = HRet.async ∧
    (handleRemoteCreate 10 ⟨mgrC1, clsC1b⟩ "A" newC1).1.remote.pendingChanges
      = mgrC1.pendingChanges := by
  decide

/-- C3: counterexample.  Task `B` is pending and returns
`blockedOn: ['A']` while `A` is currently running in the same slot: the
claim says a running dependency never appears in the wait-set (so the
filtered subset would be empty and `B` would stay pending), but
`tryBlockTask` parks `B` under the wait-set `['A']` and removes it from
the pending set. -/
theorem c3_running_dependency_blocks_counterexample :
    findTask sC3 "A" = some (TaskLoc.runningIn "slot1") ∧
    (tryBlockTask sC3 "B" ["A"]).1.blocking =
      [("B", ⟨"slot1", ["A"]⟩)] ∧
    alistGet (tryBlockTask sC3 "B" ["A"]).1.tasks "slot1" =
      some { running := ["A"], pending := [], maxParallel := 2 } := by
  decide

/-- C7: counterexample.  Resolving the only pending change with the
matching etag promotes the entry and empties the in-memory buffer, but
`update(..., ['pendingChanges'])` skips the write when the buffer is
empty, so the persisted copy still holds the resolved change — the
buffer is not persisted. -/
theorem c7_emptied_buffer_not_persisted_counterexample :
    (resolvePendingChange sC7 "A" (some "e") eC7new).2 = true ∧
    (resolvePendingChange sC7 "A" (some "e") eC7new).1.mem.pendingChanges
      = [] ∧
    (resolvePendingChange sC7 "A" (some "e") eC7new).1.storedPendingChanges
      = [("A", { etag := some "e" })] ∧
    (resolvePendingChange sC7 "A" (some "e") eC7new).1.storedPendingChanges
      ≠ (resolvePendingChange sC7 "A" (some "e") eC7new).1.mem.pendingChanges := by
  decide

/-- C7 (amended): `resolvePendingChange` is a strict no-op when no
pending change exists for the id or the pending etag differs; otherwise
it promotes `newEntry` into `idEntryMap`, removes the id from
`pendingChanges`, and writes the buffer back to storage only when the
remaining buffer is non-empty (removing the last pending change leaves
the stored copy stale). -/
theorem c7_resolvePendingChange_guarded (s : RFMS) (id : String)
    (etag : Option String) (newEntry : REntry) :
    (alistGet s.mem.pendingChanges id = none →
      resolvePendingChange s id etag newEntry = (s, false)) ∧
    (∀ pc, alistGet s.mem.pendingChanges id = some pc → pc.etag ≠ etag →
      resolvePendingChange s id etag newEntry = (s, false)) ∧
    (∀ pc, alistGet s.mem.pendingChanges id = some pc → pc.etag = etag →
      (resolvePendingChange s id etag newEntry).1.mem.idEntryMap =
        alistSet s.mem.idEntryMap id newEntry ∧
      (resolvePendingChange s id etag newEntry).1.mem.pendingChanges =
        alistRemove s.mem.pendingChanges id ∧
      (resolvePendingChange s id etag newEntry).1.storedPendingChanges =
        (if (alistRemove s.mem.pendingChanges id).length > 0 then
          alistRemove s.mem.pendingChanges id
        else s.storedPendingChanges)) := by
  refine ⟨fun h => ?_, fun pc h hne => ?_, fun pc h he => ?_⟩
  · simp [resolvePendingChange, h]
  · simp [resolvePendingChange, h, hne]
  · simp [resolvePendingChange, h, he, updatePendingChangesKey]
    split <;> simp

/-- C7 witness: the no-op branch and the successful branch of
`c7_resolvePendingChange_guarded` at the concrete state `sC7`. -/
theorem c7_resolvePendingChange_guarded_witness :
    resolvePendingChange sC7 "A" (some "x") eC7new = (sC7, false) :=
  (c7_resolvePendingChange_guarded sC7 "A" (some "x") eC7new).2.1
    { etag := some "e" } (by decide) (by decide)

/-- C10: when `resolvePendingChange` takes the guarded branch (no
pending change for the id, or an etag mismatch) the supplied callback is
never invoked — the whole call returns before `update` is reached —
whereas the successful branch always invokes it (via the storage-set
completion). -/
theorem c10_guarded_resolution_skips_callback (s : RFMS) (id : String)
    (etag : Option String) (newEntry : REntry) :
    ((alistGet s.mem.pendingChanges id = none ∨
      ∃ pc, alistGet s.mem.pendingChanges id = some pc ∧ pc.etag ≠ etag) →
      (resolvePendingChange s id etag newEntry).2 = false ∧
      (resolvePendingChange s id etag newEntry).1 = s) ∧
    (∀ pc, alistGet s.mem.pendingChanges id = some pc → pc.etag = etag →
      (resolvePendingChange s id etag newEntry).2 = true) := by
  constructor
  · rintro (h | ⟨pc, h, hne⟩)
    · simp [resolvePendingChange, h]
    · simp [resolvePendingChange, h, hne]
  · intro pc h he
    simp [resolvePendingChange, h, he]

/-- C10 witness: an etag-mismatched resolution at `sC7` leaves the state
untouched and never signals completion, while the matching etag does. -/
theorem c10_guarded_resolution_skips_callback_witness :
    (resolvePendingChange sC7 "A" (some "x") eC7new).2 = false ∧
    (resolvePendingChange sC7 "A" (some "e") eC7new).2 = true :=
  ⟨((c10_guarded_resolution_skips_callback sC7 "A" (some "x") eC7new).1
      (Or.inr ⟨{ etag := some "e" }, by decide, by decide⟩)).1,
   (c10_guarded_resolution_skips_callback sC7 "A" (some "e") eC7new).2
      { etag := some "e" } (by decide) (by decide)⟩

/-- C6: `findPaths` follows exactly the claimed recursion.  Base case:
`findPaths('root') = [['root']]`.  For any other id resolved to an entry
(from `idEntryMap`, or synthesized from a non-empty pending payload when
unknown), the result is the concatenation, over the entry's parents, of
that parent's paths each extended with the id — so the path count is the
sum `M1 + ... + MN` of the parents' path counts.  An id absent from both
maps, or whose pending payload is empty, yields no paths. -/
theorem c6_findPaths_recursive_fanout (m : RFM) (fuel : Nat) :
    (findPaths m (fuel + 1) (some "root") = [[some "root"]]) ∧
    (∀ id e ps, id ≠ "root" → alistGet m.idEntryMap id = some e →
      e.parents = some ps →
      findPaths m (fuel + 1) (some id) =
        ps.flatMap (fun parent =>
          (findPaths m fuel parent.strOpt).map (fun q => q ++ [some id])) ∧
      (findPaths m (fuel + 1) (some id)).length =
        (ps.map (fun parent => (findPaths m fuel parent.strOpt).length)).sum) ∧
    (∀ id, id ≠ "root" → alistGet m.idEntryMap id = none →
      alistGet m.pendingChanges id = none →
      findPaths m (fuel + 1) (some id) = []) ∧
    (∀ id pc, id ≠ "root" → alistGet m.idEntryMap id = none →
      alistGet m.pendingChanges id = some pc → pc.isEmptyObj = true →
      findPaths m (fuel + 1) (some id) = []) ∧
    (∀ id pc ps, id ≠ "root" → alistGet m.idEntryMap id = none →
      alistGet m.pendingChanges id = some pc → pc.isEmptyObj = false →
      (RemoteEntry.init pc).parents = some ps →
      findPaths m (fuel + 1) (some id) =
        ps.flatMap (fun parent =>
          (findPaths m fuel parent.strOpt).map (fun q => q ++ [some id]))) := by
  refine ⟨?_, fun id e ps h1 h2 h3 => ⟨?_, ?_⟩, fun id h1 h2 h3 => ?_,
    fun id pc h1 h2 h3 h4 => ?_, fun id pc ps h1 h2 h3 h4 h5 => ?_⟩
  · simp [findPaths]
  · simp [findPaths, h1, h2, h3]
  · simp only [findPaths, h1, h2, h3]
    simp [h1, h2, h3, List.length_flatMap, Function.comp_def]
  · simp [findPaths, h1, h2, h3]
  · simp [findPaths, h1, h2, h3, h4]
  · simp [findPaths, h1, h2, h3, h4, h5]

/-- C6 witness: the multi-parent fan-out of spec §8 — file `X` with
parents `root` and `F2` yields exactly the two paths `['root','X']` and
`['root','F2','X']`, whose count is the sum over the two parents. -/
theorem c6_findPaths_recursive_fanout_witness :
    findPaths mgrC6 3 (some "X") =
      [[some "root", some "X"], [some "root", some "F2", some "X"]] := by
  have h := ((c6_findPaths_recursive_fanout mgrC6 2).2.1 "X" entC6X
    [JParent.str "root", JParent.str "F2"] (by decide) (by decide)
    (by decide)).1
  rw [h]
  decide

/-- C3 (amended): when a task that returned `blockedOn` is found pending,
the wait-set it is parked under is exactly the named dependencies that
are still present anywhere in the queue — pending, running, or blocked —
and distinct from the task itself (deduplicated by `Set.fromArray`); a
dependency that no longer exists (completed or never queued) is filtered
out, but a currently-running dependency IS kept.  When the filtered
subset is empty the task stays pending: the state is unchanged. -/
theorem c3_tryBlockTask_waitset_amended (s : QState) (t : String)
    (deps : List String) (slotName : String) (sl : Slot)
    (hfind : findTask s t = some (TaskLoc.pendingIn slotName))
    (hslot : alistGet s.tasks slotName = some sl) :
    (deps.filter (fun d => (findTask s d).isSome ∧ d ≠ t) = [] →
      tryBlockTask s t deps = (s, none)) ∧
    (deps.filter (fun d => (findTask s d).isSome ∧ d ≠ t) ≠ [] →
      tryBlockTask s t deps =
        ({ s with
            blocking := alistSet s.blocking t
              ⟨slotName, setFromArray
                (deps.filter (fun d => (findTask s d).isSome ∧ d ≠ t))⟩,
            tasks := alistSet s.tasks slotName
              { sl with pending := objRemove sl.pending t } }, none)) := by
  constructor
  · intro hf
    unfold tryBlockTask
    rw [hfind, hf]
    simp
  · intro hf
    have hlen : 0 < (deps.filter
        (fun d => (findTask s d).isSome ∧ d ≠ t)).length :=
      List.length_pos.mpr hf
    unfold tryBlockTask removePendingTask
    rw [hfind]
    simp only [hslot, if_pos hlen]

/-- C3 witness: applying the amended characterization at the concrete
state `sC3` — the parked wait-set keeps the running dependency `A` and
task `B` leaves the pending set. -/
theorem c3_tryBlockTask_waitset_amended_witness :
    (tryBlockTask sC3 "B" ["A"]).2 = none ∧
    (tryBlockTask sC3 "B" ["A"]).1.blocking = [("B", ⟨"slot1", ["A"]⟩)] ∧
    (tryBlockTask sC3 "B" ["A"]).1.tasks =
      [("slot1", { running := ["A"], pending := [], maxParallel := 2 })] := by
  have h := (c3_tryBlockTask_waitset_amended sC3 "B" ["A"] "slot1"
      { running := ["A"], pending := ["B"], maxParallel := 2 }
      (by decide) (by decide)).2 (by decide)
  rw [h]
  exact ⟨rfl, by decide, by decide⟩

theorem mem_objInsert {l : List String} {k x : String} :
    x ∈ objInsert l k ↔ x ∈ l ∨ x = k := by
  unfold objInsert
  split
  · rename_i h
    rw [List.elem_iff] at h
    constructor
    · exact Or.inl
    · rintro (hx | rfl)
      · exact hx
      · exact h
  · simp [List.mem_append]

theorem mem_foldl_objInsert (x : String) :
    ∀ (l acc : List String), x ∈ l.foldl objInsert acc ↔ x ∈ acc ∨ x ∈ l
  | [], acc => by simp
  | k :: rest, acc => by
    rw [List.foldl_cons, mem_foldl_objInsert x rest (objInsert acc k),
      mem_objInsert]
    simp
    tauto

theorem mem_setFromArray {l : List String} {x : String} :
    x ∈ setFromArray l ↔ x ∈ l := by
  unfold setFromArray
  rw [mem_foldl_objInsert]
  simp

theorem mem_setMinus {a b : List String} {x : String} :
    x ∈ setMinus a b ↔ x ∈ a ∧ x ∉ b := by
  unfold setMinus
  simp [List.mem_filter, List.elem_iff]

theorem mem_setIntersect {a b : List String} {x : String} :
    x ∈ setIntersect a b ↔ x ∈ a ∧ x ∈ b := by
  unfold setIntersect
  simp [List.mem_filter, List.elem_iff]

theorem mem_of_alistGet {α : Type} {l : List (String × α)} {k : String}
    {v : α} (h : alistGet l k = some v) : (k, v) ∈ l := by
  unfold alistGet at h
  cases hf : List.find? (fun p => p.1 == k) l with
  | none => rw [hf] at h; cases h
  | some q =>
    rw [hf] at h
    have hq : q ∈ l := List.mem_of_find?_eq_some hf
    have hbeq := List.find?_some hf
    cases q with
    | mk a b =>
      simp at hbeq h
      subst hbeq
      subst h
      exact hq

theorem alistGet_isSome_iff {α : Type} {l : List (String × α)}
    {k : String} : (alistGet l k).isSome ↔ k ∈ alistKeys l := by
  unfold alistGet alistKeys
  simp only [Option.isSome_map']
  rw [List.find?_isSome]
  simp [List.mem_map]

theorem alistGet_eq_none_iff {α : Type} {l : List (String × α)}
    {k : String} : alistGet l k = none ↔ k ∉ alistKeys l := by
  rw [← alistGet_isSome_iff, Option.isSome_iff_ne_none]
  tauto

theorem mem_compare_fold (knownMap freshMap : List (String × LEntry))
    (x : String) :
    ∀ (l acc : List String),
      (x ∈ l.foldl (fun acc path =>
          match alistGet freshMap path, alistGet knownMap path with
          | some currentEntry, some knownEntry =>
            if currentEntry.size ≠ none then
              if currentEntry.size ≠ knownEntry.size ∨
                 currentEntry.modifiedTime ≠ knownEntry.modifiedTime then
                objInsert acc path
              else acc
            else acc
          | _, _ => acc) acc)
      ↔ (x ∈ acc ∨ (x ∈ l ∧ ∃ ce ke, alistGet freshMap x = some ce ∧
           alistGet knownMap x = some ke ∧ ce.size ≠ none ∧
           (ce.size ≠ ke.size ∨ ce.modifiedTime ≠ ke.modifiedTime)))
  | [], acc => by simp
  | path :: rest, acc => by
    rw [List.foldl_cons, mem_compare_fold knownMap freshMap x rest _]
    by_cases hx : x = path
    · subst hx
      cases hce : alistGet freshMap x with
      | none => simp [hce]
      | some ce =>
        cases hke : alistGet knownMap x with
        | none => simp [hce, hke]
        | some ke =>
          by_cases h1 : ce.size = none
          · simp [hce, hke, h1]
          · by_cases h2 : ce.size ≠ ke.size ∨ ce.modifiedTime ≠ ke.modifiedTime
            · simp [hce, hke, h1, h2, mem_objInsert]
            · simp [hce, hke, h1, h2]
    · cases hce : alistGet freshMap path with
      | none => simp [hce, hx]
      | some ce =>
        cases hke : alistGet knownMap path with
        | none => simp [hce, hke, hx]
        | some ke =>
          by_cases h1 : ce.size = none
          · simp [hce, hke, h1, hx]
          · by_cases h2 : ce.size ≠ ke.size ∨ ce.modifiedTime ≠ ke.modifiedTime
            · simp [hce, hke, h1, h2, mem_objInsert, hx]
            · simp [hce, hke, h1, h2, hx]

/-- C8: `compare` classifies exactly as claimed.  Created paths are the
fresh paths absent from the known snapshot, deleted paths the known
paths absent from the fresh scan; a path present in both is modified iff
its fresh entry is a file (carries a size) whose size or modification
time differs from the stored entry.  Consequently a rename with the
entry otherwise unchanged yields exactly one created and one deleted
path and never a modified one. -/
theorem c8_compare_classification (knownMap freshMap : List (String × LEntry)) :
    (∀ p, p ∈ (compare knownMap freshMap).createdPaths ↔
        p ∈ alistKeys freshMap ∧ p ∉ alistKeys knownMap) ∧
    (∀ p, p ∈ (compare knownMap freshMap).deletedPaths ↔
        p ∈ alistKeys knownMap ∧ p ∉ alistKeys freshMap) ∧
    (∀ p ce ke, alistGet freshMap p = some ce →
      alistGet knownMap p = some ke →
      (p ∈ (compare knownMap freshMap).modifiedPaths ↔
        ce.size ≠ none ∧
        (ce.size ≠ ke.size ∨ ce.modifiedTime ≠ ke.modifiedTime))) ∧
    (∀ a b ent, a ≠ b →
      alistGet knownMap a = some ent → alistGet freshMap a = none →
      alistGet freshMap b = some ent → alistGet knownMap b = none →
      (∀ p, p ∈ alistKeys freshMap ↔
        (p ∈ alistKeys knownMap ∧ p ≠ a) ∨ p = b) →
      ((∀ p, p ∈ (compare knownMap freshMap).createdPaths ↔ p = b) ∧
       (∀ p, p ∈ (compare knownMap freshMap).deletedPaths ↔ p = a) ∧
       a ∉ (compare knownMap freshMap).modifiedPaths ∧
       b ∉ (compare knownMap freshMap).modifiedPaths)) := by
  have hcreated : ∀ p, p ∈ (compare knownMap freshMap).createdPaths ↔
      p ∈ alistKeys freshMap ∧ p ∉ alistKeys knownMap := by
    intro p
    simp only [compare]
    rw [mem_setMinus]
    simp [mem_setFromArray]
  have hdeleted : ∀ p, p ∈ (compare knownMap freshMap).deletedPaths ↔
      p ∈ alistKeys knownMap ∧ p ∉ alistKeys freshMap := by
    intro p
    simp only [compare]
    rw [mem_setMinus]
    simp [mem_setFromArray]
  have hmodified : ∀ p, p ∈ (compare knownMap freshMap).modifiedPaths ↔
      (p ∈ alistKeys freshMap ∧ p ∈ alistKeys knownMap) ∧
      ∃ ce ke, alistGet freshMap p = some ce ∧ alistGet knownMap p = some ke ∧
        ce.size ≠ none ∧
        (ce.size ≠ ke.size ∨ ce.modifiedTime ≠ ke.modifiedTime) := by
    intro p
    simp only [compare]
    rw [mem_compare_fold]
    rw [mem_setIntersect]
    simp [mem_setFromArray]
  refine ⟨hcreated, hdeleted, fun p ce ke hce hke => ?_,
    fun a b ent hab hka hfa hfb hkb hkeys => ?_⟩
  · have hpF : p ∈ alistKeys freshMap := by
      rw [← alistGet_isSome_iff, hce]; rfl
    have hpK : p ∈ alistKeys knownMap := by
      rw [← alistGet_isSome_iff, hke]; rfl
    rw [hmodified p]
    simp [hce, hke, hpF, hpK]
  · have haK : a ∈ alistKeys knownMap := by
      rw [← alistGet_isSome_iff, hka]; rfl
    have hbF : b ∈ alistKeys freshMap := by
      rw [← alistGet_isSome_iff, hfb]; rfl
    have haF : a ∉ alistKeys freshMap := alistGet_eq_none_iff.mp hfa
    have hbK : b ∉ alistKeys knownMap := alistGet_eq_none_iff.mp hkb
    refine ⟨fun p => ?_, fun p => ?_, ?_, ?_⟩
    · rw [hcreated p, hkeys p]
      constructor
      · rintro ⟨(⟨hpK, _⟩ | rfl), hnK⟩
        · exact absurd hpK hnK
        · rfl
      · rintro rfl
        exact ⟨Or.inr rfl, hbK⟩
    · rw [hdeleted p, hkeys p]
      constructor
      · rintro ⟨hpK, hn⟩
        by_contra hpa
        exact hn (Or.inl ⟨hpK, hpa⟩)
      · rintro rfl
        refine ⟨haK, ?_⟩
        rintro (⟨_, hne⟩ | rfl)
        · exact hne rfl
        · exact hab rfl
    · intro hmem
      rcases (hmodified a).mp hmem with ⟨_, ce, _, hget, _⟩
      rw [hfa] at hget
      cases hget
    · intro hmem
      rcases (hmodified b).mp hmem with ⟨_, _, ke, _, hget, _⟩
      rw [hkb] at hget
      cases hget

/-- C8 witness: the spec-§8 rename scenario — `a.txt` renamed to `b.txt`
with the entry unchanged gives exactly one created and one deleted path
and no modified path. -/
theorem c8_compare_classification_witness :
    (∀ p, p ∈ (compare [("a.txt", entC8)] [("b.txt", entC8)]).createdPaths ↔
      p = "b.txt") ∧
    (∀ p, p ∈ (compare [("a.txt", entC8)] [("b.txt", entC8)]).deletedPaths ↔
      p = "a.txt") ∧
    "a.txt" ∉ (compare [("a.txt", entC8)] [("b.txt", entC8)]).modifiedPaths ∧
    "b.txt" ∉ (compare [("a.txt", entC8)] [("b.txt", entC8)]).modifiedPaths :=
  (c8_compare_classification [("a.txt", entC8)] [("b.txt", entC8)]).2.2.2
    "a.txt" "b.txt" entC8 (by decide) (by decide) (by decide) (by decide)
    (by decide) (by intro p; simp [alistKeys])

theorem collisionLoop_spec (keys : List String) (cand : Nat → String) :
    ∀ (fuel seq : Nat) (start p : String),
      collisionLoop keys cand fuel start seq = some p →
      ¬ keys.contains p ∧
      (p = start ∨ (keys.contains start ∧ ∃ k, seq ≤ k ∧ k < seq + fuel ∧
        p = cand k ∧ ∀ j, seq ≤ j → j < k → keys.contains (cand j)))
  | 0, seq, start, p => by
    intro h
    unfold collisionLoop at h
    split at h
    · rename_i hc
      cases h
      exact ⟨hc, Or.inl rfl⟩
    · cases h
  | fuel + 1, seq, start, p => by
    intro h
    unfold collisionLoop at h
    split at h
    · rename_i hc
      cases h
      exact ⟨hc, Or.inl rfl⟩
    · rename_i hc
      have hstart : keys.contains start := by
        by_contra hn
        exact hc hn
      have ih := collisionLoop_spec keys cand fuel (seq + 1) (cand seq) p h
      rcases ih with ⟨hnp, hrest⟩
      refine ⟨hnp, Or.inr ⟨hstart, ?_⟩⟩
      rcases hrest with rfl | ⟨hcs, k, hk1, hk2, rfl, hall⟩
      · exact ⟨seq, le_refl _, by omega, rfl,
          fun j hj1 hj2 => absurd hj2 (by omega)⟩
      · refine ⟨k, by omega, by omega, rfl, fun j hj1 hj2 => ?_⟩
        by_cases hj : j = seq
        · subst hj
          exact hcs
        · exact hall j (by omega) hj2

/-- C9: on the success path `createEntry` creates at a path that is not a
key of `pathEntryMap`: the candidate is the sanitized-title full path
itself when free, and otherwise the first candidate of the sequence
`' (1)', ' (2)', …` that is not already known (every earlier candidate
being a known key); the filesystem object is created with
`{create: true, exclusive: !isDirectory}` and the new entry (holding the
remote id) is recorded under the chosen path. -/
theorem c9_createEntry_unique_path
    (m : List (String × LEntry)) (sanitize : String → String)
    (parentPath title : String) (isDirectory : Bool) (remoteId : String)
    (fuel : Nat) (p : String) (flags : CreateFlags)
    (m2 : List (String × LEntry))
    (h : createEntry m sanitize parentPath title isDirectory remoteId fuel =
      some (p, flags, m2)) :
    ¬ (alistKeys m).contains p ∧
    flags = ⟨true, !isDirectory⟩ ∧
    m2 = alistSet m p { remoteId := some remoteId } ∧
    (p = getFullPath sanitize parentPath title isDirectory none ∨
      ((alistKeys m).contains
          (getFullPath sanitize parentPath title isDirectory none) ∧
        ∃ k, 1 ≤ k ∧
          p = getFullPath sanitize parentPath title isDirectory (some k) ∧
          ∀ j, 1 ≤ j → j < k →
            (alistKeys m).contains
              (getFullPath sanitize parentPath title isDirectory (some j)))) := by
  unfold createEntry at h
  dsimp only at h
  rw [if_pos rfl] at h
  cases hl : collisionLoop (alistKeys m)
      (fun n => getFullPath sanitize parentPath title isDirectory
        (if n = 0 then none else some n)) fuel
      (getFullPath sanitize parentPath title isDirectory none) 1 with
  | none =>
    rw [hl] at h
    cases h
  | some q =>
    rw [hl] at h
    cases h
    have hs := collisionLoop_spec (alistKeys m)
      (fun n => getFullPath sanitize parentPath title isDirectory
        (if n = 0 then none else some n)) fuel 1 _ p hl
    rcases hs with ⟨hnp, hrest⟩
    refine ⟨hnp, rfl, rfl, ?_⟩
    rcases hrest with heq | ⟨hc0, k, hk1, _, heq, hall⟩
    · left
      exact heq
    · right
      have hk0 : k ≠ 0 := by omega
      refine ⟨hc0, k, hk1, ?_, fun j hj1 hj2 => ?_⟩
      · rw [heq]
        simp only [if_neg hk0]
      · have hcj := hall j hj1 hj2
        simp only [if_neg (show j ≠ 0 by omega)] at hcj
        exact hcj

/-- C9 witness: with `f` and `f (1)` already known, the created path is
`f (2)`, which is not a known key. -/
theorem c9_createEntry_unique_path_witness :
    ¬ (alistKeys mapC9).contains "f (2)" ∧
    (⟨true, true⟩ : CreateFlags) = ⟨true, !false⟩ :=
  ⟨(c9_createEntry_unique_path mapC9 (fun s => s) "/" "f" false "rid" 10
      "f (2)" ⟨true, true⟩
      (alistSet mapC9 "f (2)" { remoteId := some "rid" })
      (by decide)).1,
   (c9_createEntry_unique_path mapC9 (fun s => s) "/" "f" false "rid" 10
      "f (2)" ⟨true, true⟩
      (alistSet mapC9 "f (2)" { remoteId := some "rid" })
      (by decide)).2.1⟩

theorem mem_alistSet {α : Type} {l : List (String × α)} {k : String}
    {v : α} {q : String × α} (h : q ∈ alistSet l k v) :
    q = (k, v) ∨ q ∈ l := by
  unfold alistSet at h
  split at h
  · rcases List.mem_map.mp h with ⟨p, hp, hq⟩
    split at hq
    · exact Or.inl hq.symm
    · exact Or.inr (hq ▸ hp)
  · rcases List.mem_append.mp h with hq | hq
    · exact Or.inr hq
    · exact Or.inl (List.mem_singleton.mp hq)

theorem length_objInsert_le (l : List String) (k : String) :
    (objInsert l k).length ≤ l.length + 1 := by
  unfold objInsert
  split
  · omega
  · simp

theorem length_objRemove_le (l : List String) (k : String) :
    (objRemove l k).length ≤ l.length :=
  List.length_filter_le _ _

theorem slotInv_of_alistGet {s : QState} {n : String} {sl : Slot}
    (h : SlotInv s) (hg : alistGet s.tasks n = some sl) :
    sl.running.length ≤ sl.maxParallel :=
  h (n, sl) (mem_of_alistGet hg)

theorem slotInv_moveBlockedToPending (s : QState) (slotName name : String)
    (h : SlotInv s) : SlotInv (moveBlockedToPending s slotName name) := by
  unfold moveBlockedToPending
  cases hg : alistGet s.tasks slotName with
  | some sl =>
    intro p hp
    rcases mem_alistSet hp with rfl | hp'
    · simpa using slotInv_of_alistGet h hg
    · exact h p hp'
  | none => exact h

theorem slotInv_removePendingTask (s : QState) (slotName name : String)
    (h : SlotInv s) : SlotInv (removePendingTask s slotName name) := by
  unfold removePendingTask
  cases hg : alistGet s.tasks slotName with
  | some sl =>
    intro p hp
    rcases mem_alistSet hp with rfl | hp'
    · simpa using slotInv_of_alistGet h hg
    · exact h p hp'
  | none => exact h

theorem slotInv_unpromoteTask (s : QState) (slotName name : String)
    (h : SlotInv s) : SlotInv (unpromoteTask s slotName name) := by
  unfold unpromoteTask
  cases hg : alistGet s.tasks slotName with
  | some sl =>
    intro p hp
    rcases mem_alistSet hp with rfl | hp'
    · simpa using le_trans (length_objRemove_le sl.running name)
        (slotInv_of_alistGet h hg)
    · exact h p hp'
  | none => exact h

theorem slotInv_removeRunningTask (s : QState) (slotName name : String)
    (h : SlotInv s) : SlotInv (removeRunningTask s slotName name) := by
  unfold removeRunningTask
  cases hg : alistGet s.tasks slotName with
  | some sl =>
    intro p hp
    rcases mem_alistSet hp with rfl | hp'
    · simpa using le_trans (length_objRemove_le sl.running name)
        (slotInv_of_alistGet h hg)
    · exact h p hp'
  | none => exact h

theorem slotInv_checkBlockingEntry (t : String) (s : QState) (n : String)
    (d : BlockInfo) (h : SlotInv s) :
    SlotInv (checkBlockingEntry t s n d).1 := by
  unfold checkBlockingEntry
  split
  · dsimp only
    split
    · exact slotInv_moveBlockedToPending s d.slotName n h
    · exact h
  · dsimp only
    split
    · exact slotInv_moveBlockedToPending s d.slotName n h
    · exact h

theorem slotInv_checkBlockingTasks (s : QState) (t : String)
    (h : SlotInv s) : SlotInv (checkBlockingTasks s t).1 := by
  unfold checkBlockingTasks
  have hgen : ∀ (l : List (String × BlockInfo)) (acc : QState × Bool),
      SlotInv acc.1 →
      SlotInv (l.foldl (fun acc p =>
        let r := checkBlockingEntry t acc.1 p.1 p.2
        (r.1, acc.2 || r.2)) acc).1 := by
    intro l
    induction l with
    | nil => exact fun acc hacc => hacc
    | cons hd tl ih =>
      intro acc hacc
      rw [List.foldl_cons]
      exact ih _ (slotInv_checkBlockingEntry t acc.1 hd.1 hd.2 hacc)
  exact hgen s.blocking (s, false) h

theorem slotInv_tryBlockTask (s : QState) (t : String)
    (deps : List String) (h : SlotInv s) :
    SlotInv (tryBlockTask s t deps).1 := by
  unfold tryBlockTask
  dsimp only
  split
  · exact h
  · exact h
  · split
    · exact slotInv_removePendingTask _ _ t h
    · exact h
  · exact h

theorem slotInv_checkCompleted (s : QState) (h : SlotInv s) :
    SlotInv (checkCompleted s) := by
  unfold checkCompleted
  split
  · split
    · exact h
    · exact h
  · exact h

theorem slotInv_getSlot (s : QState) (n : String) (h : SlotInv s) :
    SlotInv (getSlot s n).1 ∧
    (getSlot s n).2.running.length ≤ (getSlot s n).2.maxParallel := by
  unfold getSlot
  cases hg : alistGet s.tasks n with
  | some sl => exact ⟨h, slotInv_of_alistGet h hg⟩
  | none =>
    refine ⟨fun p hp => ?_, by simp⟩
    rcases List.mem_append.mp hp with hp' | hp'
    · exact h p hp'
    · rw [List.mem_singleton.mp hp']
      simp

theorem slotInv_queueTask (s : QState) (sn : String) (tn : Option String)
    (h : SlotInv s) : SlotInv (queueTask s sn tn) := by
  unfold queueTask
  have hg := slotInv_getSlot { s with completedFlag := false } sn h
  have hset : ∀ nm : String, ∀ p : String × Slot,
      p ∈ alistSet (getSlot { s with completedFlag := false } sn).1.tasks
        sn { (getSlot { s with completedFlag := false } sn).2 with
              pending := objInsert
                (getSlot { s with completedFlag := false } sn).2.pending nm } →
      p.2.running.length ≤ p.2.maxParallel := by
    intro nm p hp
    rcases mem_alistSet hp with rfl | hp'
    · simpa using hg.2
    · exact hg.1 p hp'
  dsimp only
  split
  · split
    · intro p hp
      exact hset _ p hp
    · intro p hp
      exact hset _ p hp
  · intro p hp
    exact hset _ p hp

theorem slotInv_run_mutual (beh : String → Nat → TaskResult) :
    ∀ fuel : Nat,
      (∀ s slotName, SlotInv s →
        SlotInv (runTasksForSlot beh fuel s slotName)) ∧
      (∀ s slotName taskName, SlotInv s →
        SlotInv (onTaskCompleted beh fuel s slotName taskName)) ∧
      (∀ s names, SlotInv s → SlotInv (runSlots beh fuel s names))
  | 0 => by
    refine ⟨fun s n h => ?_, fun s n t h => ?_, fun s ns h => ?_⟩
    · simpa [runTasksForSlot] using h
    · simpa [onTaskCompleted] using h
    · simpa [runSlots] using h
  | fuel + 1 => by
    obtain ⟨ih1, ih2, ih3⟩ := slotInv_run_mutual beh fuel
    refine ⟨fun s slotName h => ?_, fun s slotName taskName h => ?_,
      fun s names h => ?_⟩
    · unfold runTasksForSlot
      split
      · exact h
      · rename_i slot hgeq
        split
        · exact h
        · rename_i hguard
          push_neg at hguard
          have hlt : slot.running.length < slot.maxParallel := hguard.1
          split
          · exact h
          · rename_i candidate rest hpeq
            have hs1 : SlotInv { s with
                tasks := alistSet s.tasks slotName
                  { slot with
                    running := objInsert slot.running candidate,
                    pending := objRemove slot.pending candidate },
                tick := s.tick + 1 } := by
              intro p hp2
              rcases mem_alistSet hp2 with rfl | hp3
              · simpa using le_trans (length_objInsert_le _ _) hlt
              · exact h p hp3
            split
            · exact ih1 _ _ hs1
            · exact ih1 _ _ (ih2 _ _ _ hs1)
            · exact ih1 _ _ (slotInv_tryBlockTask _ _ _
                (slotInv_unpromoteTask _ _ _ hs1))
    · unfold onTaskCompleted
      apply slotInv_checkCompleted
      split
      · exact ih3 _ _ (slotInv_checkBlockingTasks _ _
          (slotInv_removeRunningTask _ _ _ h))
      · exact ih1 _ _ (slotInv_checkBlockingTasks _ _
          (slotInv_removeRunningTask _ _ _ h))
    · cases names with
      | nil =>
        simp only [runSlots]
        exact h
      | cons n rest =>
        simp only [runSlots]
        exact ih3 _ _ (ih1 _ _ h)

theorem slotInv_execEvent (beh : String → Nat → TaskResult) (fuel : Nat)
    (s : QState) (e : QEvent) (h : SlotInv s) :
    SlotInv (execEvent beh fuel s e) := by
  cases e with
  | queue sn tn => exact slotInv_queueTask s sn tn h
  | run hc =>
    refine (slotInv_run_mutual beh fuel).2.2 _ _ ?_
    cases hc
    · exact h
    · exact h
  | complete sn tn => exact (slotInv_run_mutual beh fuel).2.1 _ _ _ h

theorem slotInv_execEvents (beh : String → Nat → TaskResult) (fuel : Nat) :
    ∀ (evs : List QEvent) (s : QState), SlotInv s →
      SlotInv (execEvents beh fuel s evs)
  | [], _, h => h
  | e :: rest, s, h =>
    slotInv_execEvents beh fuel rest _ (slotInv_execEvent beh fuel s e h)

/-- C4: for every behaviour of the task callbacks, every fuel bound and
every sequence of external events (queuing tasks, `run()` calls, and
asynchronous task completions — blocking returns are processed inside
the run machinery), starting from any state satisfying the slot-limit
invariant, every slot's running set stays within its configured
`maxParallel`; promotion into the running set happens only under the
`running.size < maxParallel` guard of `runTasksForSlot_`. -/
theorem c4_slot_parallelism_invariant (beh : String → Nat → TaskResult)
    (fuel : Nat) (evs : List QEvent) (s0 : QState) (h : SlotInv s0) :
    SlotInv (execEvents beh fuel s0 evs) :=
  slotInv_execEvents beh fuel evs s0 h

/-- C4 witness: the engine's slot configuration with five tasks queued
into the `upload` slot (`maxParallel = 2`), run, and two completions —
the invariant holds before and after. -/
theorem c4_slot_parallelism_invariant_witness :
    SlotInv s0C4 ∧ SlotInv (execEvents behC4 8 s0C4 evsC4) :=
  ⟨by decide, c4_slot_parallelism_invariant behC4 8 evsC4 s0C4 (by decide)⟩

end DriveClient
